import Mathlib

/-!
Verification of the USCIS case tracker userscript (version 0.5 of
uscis-tracker.user.js): a shallow embedding of its event-code lookup
table, case normalization (fetchCaseData), localStorage-backed history
store (getHistory, getLastSavedCases, saveToHistory, clearAllHistory),
and change-detection engine (detectFieldHighlights), together with
theorems settling the specified properties of those functions.
-/

/-! ## Static event-code table and description lookup -/

/-- The EVENT_CODES map of the script (version 0.5), as an association
list from code to description. -/
def EVENT_CODES : List (String × String) :=
  [("IAF", "Receipt letter emailed"),
   ("FTA0", "Biometrics / database checks received"),
   ("SA", "Status Adjusted"),
   ("LDA", "Card Produced"),
   ("H008", "Case Approved"),
   ("H016", "Case Denied"),
   ("IKA", "RFE issued")]

/-- key.toUpperCase(): uppercase each character of the string (the
table keys are ASCII, where the JavaScript and Lean mappings agree). -/
def toUpperChars (s : String) : String :=
  ⟨s.data.map Char.toUpper⟩

/-- getEventCodeDescription: uppercase the key, look it up in
EVENT_CODES, and fall back to the sentinel "Unknown" (the ?? operator). -/
def getEventCodeDescription (key : String) : String :=
  match EVENT_CODES.lookup (toUpperChars key) with
  | some v => v
  | none => "Unknown"

/-! ## Data model for the change-detection engine

detectFieldHighlights only reads the fields updatedAt,
updatedAtTimestamp and events of each stored case object, and the
fields eventCode and updatedAtTimestamp of each event; the embedding
records exactly those fields. A field that may be absent on the
JavaScript object is an Option. -/

/-- One event as read by the change-detection engine. -/
structure StoredEvent where
  eventCode : String
  updatedAtTimestamp : String
deriving DecidableEq, Repr

/-- One case as read by the change-detection engine. The events field
is optional: stored data may lack it, and the two branches of
detectFieldHighlights guard it differently. -/
structure StoredCase where
  updatedAt : Option String
  updatedAtTimestamp : Option String
  events : Option (List StoredEvent)
deriving DecidableEq, Repr

/-- A mapping from case number to case, in key order (JavaScript object
keys in insertion order). -/
abbrev Cases := List (String × StoredCase)

/-- The per-case highlight record built by detectFieldHighlights.
newEventIndices is the Set of indices in insertion order. -/
structure Highlight where
  isNew : Bool
  updatedAtChanged : Bool
  newEventIndices : List Nat
deriving DecidableEq, Repr

abbrev HighlightMap := List (String × Highlight)

/-- The string key `eventCode + "_" + updatedAtTimestamp` that
detectFieldHighlights uses to match events across snapshots. -/
def evKey (e : StoredEvent) : String :=
  e.eventCode ++ "_" ++ e.updatedAtTimestamp

/-- The body of the forEach of detectFieldHighlights for one case
number of newCases, given the prior record found at that case number
(none when absent). In the new-case branch the source accesses
newCases[caseNum].events without a guard, so a missing events list is a
runtime error, modelled as Except.error; in the other branch both
events fields are defaulted to the empty list. -/
def detectOne (oldRec : Option StoredCase) (c : StoredCase) : Except Unit Highlight :=
  match oldRec with
  | none =>
    match c.events with
    | none => .error ()
    | some evs => .ok ⟨true, true, List.range evs.length⟩
  | some old =>
    let updatedAtChanged : Bool :=
      old.updatedAtTimestamp != c.updatedAtTimestamp || old.updatedAt != c.updatedAt
    let oldEventKeys : List String := (old.events.getD []).map evKey
    let newIdx : List Nat :=
      (((c.events.getD []).enum.filter
        (fun p => !(oldEventKeys.contains (evKey p.2)))).map (fun p => p.1))
    .ok ⟨false, updatedAtChanged, newIdx⟩

/-- detectFieldHighlights: iterate over the entries of newCases in key
order and produce one highlight per case number, by the prior record
looked up in oldCases. An exception thrown by any iteration aborts the
whole call. -/
def detectFieldHighlights (oldCases : Cases) : Cases → Except Unit HighlightMap
  | [] => .ok []
  | (k, c) :: rest =>
    match detectOne (oldCases.lookup k) c with
    | .error e => .error e
    | .ok h =>
      match detectFieldHighlights oldCases rest with
      | .error e => .error e
      | .ok hs => .ok ((k, h) :: hs)

/-! ## History store

localStorage holds two slots: HISTORY_KEY (the append-only history) and
STORAGE_KEY (the legacy single-snapshot record). A slot is either
absent, or holds a serialized value that JSON.parse either reconstructs
(well-formed) or rejects with a thrown SyntaxError (corrupt). -/

/-- One history entry: the object pushed by saveToHistory. -/
structure Snapshot where
  cases : Cases
  savedAt : String
deriving DecidableEq, Repr

/-- The legacy single-snapshot record stored under STORAGE_KEY; its
cases field may be absent (the source defaults it with || {}). -/
structure LegacyRec where
  cases : Option Cases
  lastFetch : Option String
deriving DecidableEq, Repr

/-- Serialized content of the HISTORY_KEY slot: a well-formed history
array, or data JSON.parse throws on. -/
inductive HistVal where
  | wf : List Snapshot → HistVal
  | corrupt : HistVal
deriving DecidableEq, Repr

/-- Serialized content of the STORAGE_KEY slot. -/
inductive LegacyVal where
  | wf : LegacyRec → LegacyVal
  | corrupt : LegacyVal
deriving DecidableEq, Repr

/-- The localStorage state read and written by the history store. -/
structure Storage where
  historySlot : Option HistVal
  legacySlot : Option LegacyVal
deriving DecidableEq, Repr

/-- getHistory: JSON.parse(localStorage.getItem(HISTORY_KEY) || "[]").
An absent slot parses as the empty array; corrupt data throws. -/
def getHistory (s : Storage) : Except Unit (List Snapshot) :=
  match s.historySlot with
  | none => .ok []
  | some (.wf h) => .ok h
  | some .corrupt => .error ()

/-- getLastSavedCases: the cases of the last history entry when the
history is non-empty, else the cases of the legacy record when
STORAGE_KEY is present (defaulted to empty when the field is absent),
else the empty mapping. The function only reads localStorage, so the
returned Storage is the state after the call. -/
def getLastSavedCases (s : Storage) : Except Unit (Cases × Storage) :=
  match getHistory s with
  | .error e => .error e
  | .ok history =>
    match history.getLast? with
    | some entry => .ok (entry.cases, s)
    | none =>
      match s.legacySlot with
      | some (.wf parsed) => .ok (parsed.cases.getD [], s)
      | some .corrupt => .error ()
      | none => .ok ([], s)

/-- saveToHistory: read the history, push a new entry with the given
cases and savedAt, write it back under HISTORY_KEY, and rewrite the
legacy STORAGE_KEY record with the same cases and a lastFetch stamp.
The two new Date().toISOString() calls are the savedAt and lastFetch
arguments. Returns the storage state after the call. -/
def saveToHistory (casesData : Cases) (savedAt lastFetch : String) (s : Storage) :
    Except Unit Storage :=
  match getHistory s with
  | .error e => .error e
  | .ok history =>
    .ok { historySlot := some (.wf (history ++ [⟨casesData, savedAt⟩])),
          legacySlot := some (.wf ⟨some casesData, some lastFetch⟩) }

/-- clearAllHistory: remove both keys. -/
def clearAllHistory (_s : Storage) : Storage :=
  { historySlot := none, legacySlot := none }

/-- N consecutive saveToHistory calls, one per list item
(cases, savedAt, lastFetch), left to right. -/
def appendAll : List (Cases × String × String) → Storage → Except Unit Storage
  | [], s => .ok s
  | it :: rest, s =>
    match saveToHistory it.1 it.2.1 it.2.2 s with
    | .error e => .error e
    | .ok s1 => appendAll rest s1

/-! ## Case normalization (fetchCaseData)

The normalization in fetchCaseData maps each raw event to
{eventCode, eventDesc, updatedAtTimestamp} and sorts the result by
new Date(updatedAtTimestamp) descending, with Array.prototype.sort,
which the language defines to be a stable sort consistent with the
comparator. Date parsing of a timestamp string to a numeric time value
is the parameter dateVal; the stable sort is modelled by insertionSort
under the relation "comparator does not order b strictly before a". -/

/-- One raw event of the fetched payload, with the two fields the
normalization reads. -/
structure RawEvent where
  eventCode : String
  updatedAtTimestamp : String
deriving DecidableEq, Repr

/-- One normalized event. -/
structure NormEvent where
  eventCode : String
  eventDesc : String
  updatedAtTimestamp : String
deriving DecidableEq, Repr

/-- statusData.data, restricted to the fields the normalization reads;
each may be absent on the raw payload. -/
structure CaseInfo where
  formType : Option String
  formName : Option String
  closed : Option Bool
  updatedAt : Option String
  updatedAtTimestamp : Option String
  events : Option (List RawEvent)
deriving DecidableEq, Repr

/-- The normalized case record returned by fetchCaseData. -/
structure CaseRecord where
  caseNumber : String
  formType : Option String
  formName : Option String
  closed : Option Bool
  updatedAt : Option String
  updatedAtTimestamp : Option String
  currentActionCode : Option String
  currentActionDesc : Option String
  events : List NormEvent
  documents : String
  lastFetched : String
deriving DecidableEq, Repr

/-- The map step of the normalization: resolve the description from the
code. -/
def normalizeEvent (e : RawEvent) : NormEvent :=
  ⟨e.eventCode, getEventCodeDescription e.eventCode, e.updatedAtTimestamp⟩

/-- The order in which the sort comparator
(a, b) => new Date(b.updatedAtTimestamp) - new Date(a.updatedAtTimestamp)
keeps a at or before b: the parsed date of b is at most that of a. -/
def eventLe (dateVal : String → Int) (a b : NormEvent) : Prop :=
  dateVal b.updatedAtTimestamp ≤ dateVal a.updatedAtTimestamp

instance (dateVal : String → Int) : DecidableRel (eventLe dateVal) :=
  fun _ _ => Int.decLe _ _

instance (dateVal : String → Int) : IsTotal NormEvent (eventLe dateVal) :=
  ⟨fun a b => (Int.le_total (dateVal b.updatedAtTimestamp) (dateVal a.updatedAtTimestamp)).imp id id⟩

instance (dateVal : String → Int) : IsTrans NormEvent (eventLe dateVal) :=
  ⟨fun _ _ _ hab hbc => le_trans hbc hab⟩

/-- The event pipeline of fetchCaseData: default a missing events list
to empty, map, then stable-sort descending by parsed date. -/
def normalizeEvents (dateVal : String → Int) (raw : List RawEvent) : List NormEvent :=
  ((raw.map normalizeEvent).insertionSort (eventLe dateVal))

/-- The record fetchCaseData returns, given the parsed payload
(caseInfo and documentsData) and the new Date().toISOString() reading
now. sortedEvents[0]?.eventCode is the optional-chained head. -/
def buildCaseRecord (dateVal : String → Int) (caseNumber : String) (caseInfo : CaseInfo)
    (documentsData : String) (now : String) : CaseRecord :=
  let sortedEvents := normalizeEvents dateVal (caseInfo.events.getD [])
  { caseNumber := caseNumber
    formType := caseInfo.formType
    formName := caseInfo.formName
    closed := caseInfo.closed
    updatedAt := caseInfo.updatedAt
    updatedAtTimestamp := caseInfo.updatedAtTimestamp
    currentActionCode := sortedEvents.head?.map (fun e => e.eventCode)
    currentActionDesc := sortedEvents.head?.map (fun e => e.eventDesc)
    events := sortedEvents
    documents := documentsData
    lastFetched := now }

/-! ## Helper lemmas about the change-detection engine -/

/-- Inversion of a successful detectFieldHighlights call on a non-empty
newCases list. -/
theorem detect_ok_cons {oldCases : Cases} {k : String} {c : StoredCase} {rest : Cases}
    {hl : HighlightMap}
    (hd : detectFieldHighlights oldCases ((k, c) :: rest) = .ok hl) :
    ∃ h hs, detectOne (oldCases.lookup k) c = .ok h ∧
      detectFieldHighlights oldCases rest = .ok hs ∧ hl = (k, h) :: hs := by
  simp only [detectFieldHighlights] at hd
  cases h1 : detectOne (oldCases.lookup k) c with
  | error e => rw [h1] at hd; exact absurd hd (by simp)
  | ok h =>
    rw [h1] at hd
    cases h2 : detectFieldHighlights oldCases rest with
    | error e => rw [h2] at hd; exact absurd hd (by simp)
    | ok hs =>
      rw [h2] at hd
      refine ⟨h, hs, rfl, rfl, ?_⟩
      injection hd with hd
      exact hd.symm

/-- A successful detectFieldHighlights call assigns to every case
number found in newCases the highlight detectOne computes for it from
the prior record. -/
theorem detect_ok_lookup {oldCases newCases : Cases} {hl : HighlightMap}
    {id : String} {c : StoredCase}
    (hd : detectFieldHighlights oldCases newCases = .ok hl)
    (hn : newCases.lookup id = some c) :
    ∃ h, detectOne (oldCases.lookup id) c = .ok h ∧ hl.lookup id = some h := by
  induction newCases generalizing hl with
  | nil => simp [List.lookup] at hn
  | cons p rest ih =>
    obtain ⟨k, c'⟩ := p
    obtain ⟨h, hs, h1, h2, rfl⟩ := detect_ok_cons hd
    by_cases hk : id = k
    · subst hk
      simp only [List.lookup_cons, beq_self_eq_true] at hn
      injection hn with hn
      subst hn
      exact ⟨h, h1, by simp [List.lookup_cons]⟩
    · have hk2 : (id == k) = false := beq_eq_false_iff_ne.mpr hk
      simp only [List.lookup_cons, hk2] at hn
      obtain ⟨h3, h4, h5⟩ := ih h2 hn
      exact ⟨h3, h4, by simp only [List.lookup_cons, hk2]; exact h5⟩

/-- A list of strings does not contain a string iff it is not a
member. -/
theorem contains_eq_false_iff (l : List String) (a : String) :
    l.contains a = false ↔ a ∉ l := by
  constructor
  · intro h hmem
    have h2 : l.contains a = true := List.elem_iff.mpr hmem
    rw [h] at h2
    cases h2
  · intro h
    cases hc : l.contains a with
    | false => rfl
    | true => exact absurd (List.elem_iff.mp hc) h

/-- Membership in the newEventIndices list computed in the
known-case branch of detectFieldHighlights: the index of an event of
the new record is marked iff no event of the prior record has the same
underscore-joined string key. -/
theorem mem_newIdx_iff (oldEvents newEvents : List StoredEvent) (i : Nat) (e : StoredEvent)
    (he : newEvents.get? i = some e) :
    (i ∈ ((newEvents.enum.filter
        (fun p => !((oldEvents.map evKey).contains (evKey p.2)))).map (fun p => p.1))
      ↔ ∀ e2 ∈ oldEvents, evKey e2 ≠ evKey e) := by
  constructor
  · rintro hmem e2 he2 heq
    rw [List.mem_map] at hmem
    obtain ⟨p, hp, hpi⟩ := hmem
    rw [List.mem_filter] at hp
    obtain ⟨hpenum, hpfilter⟩ := hp
    rw [List.mem_enum_iff_get?, hpi, he] at hpenum
    injection hpenum with hpe
    rw [Bool.not_eq_true'] at hpfilter
    rw [← hpe] at hpfilter
    exact (contains_eq_false_iff _ _).mp hpfilter (List.mem_map.mpr ⟨e2, he2, heq⟩)
  · intro hall
    refine List.mem_map.mpr ⟨(i, e),
      List.mem_filter.mpr ⟨List.mem_enum_iff_get?.mpr (by simpa using he), ?_⟩, rfl⟩
    show (!((oldEvents.map evKey).contains (evKey e))) = true
    rw [Bool.not_eq_true']
    exact (contains_eq_false_iff _ _).mpr (fun hmem => by
      obtain ⟨e2, he2, heq⟩ := List.mem_map.mp hmem
      exact hall e2 he2 heq)

/-! ## Claims about the change-detection engine -/

/-- Claim C1: for every id present in newCases but absent from
oldCases, a successful detectFieldHighlights call annotates that id
with isNew = true, updatedAtChanged = true and newEventIndices equal to
the full index range of the events list of the new record. -/
theorem c1_new_case_full_range (oldCases newCases : Cases) (hl : HighlightMap)
    (id : String) (c : StoredCase) (evs : List StoredEvent)
    (hd : detectFieldHighlights oldCases newCases = .ok hl)
    (hold : oldCases.lookup id = none)
    (hnew : newCases.lookup id = some c)
    (hevs : c.events = some evs) :
    hl.lookup id = some ⟨true, true, List.range evs.length⟩ := by
  obtain ⟨h, h1, h2⟩ := detect_ok_lookup hd hnew
  rw [hold] at h1
  simp only [detectOne, hevs] at h1
  injection h1 with h1
  rw [← h1] at h2
  exact h2

/-- Witness for C1 at a concrete new-only case with two events. -/
theorem c1_witness :
    detectFieldHighlights []
        [("A", (⟨none, none, some [⟨"IAF", "t"⟩, ⟨"SA", "u"⟩]⟩ : StoredCase))] =
      .ok [("A", ⟨true, true, [0, 1]⟩)]
    ∧ ([("A", (⟨true, true, [0, 1]⟩ : Highlight))] : HighlightMap).lookup "A" =
        some ⟨true, true, List.range 2⟩ :=
  ⟨rfl,
   c1_new_case_full_range [] [("A", ⟨none, none, some [⟨"IAF", "t"⟩, ⟨"SA", "u"⟩]⟩)]
     [("A", ⟨true, true, [0, 1]⟩)] "A" ⟨none, none, some [⟨"IAF", "t"⟩, ⟨"SA", "u"⟩]⟩
     [⟨"IAF", "t"⟩, ⟨"SA", "u"⟩] rfl rfl rfl rfl⟩

/-- Counterexample to claim C2 as stated: the source matches events by
the underscore-joined string eventCode + "_" + updatedAtTimestamp, not
by the pair of fields, so the distinct pairs ("X_1", "2") and
("X", "1_2") collide on the key "X_1_2". Index 0 of the new record has
a composite key that occurs in no prior event (both fields never match)
yet it is not in newEventIndices. -/
theorem c2_counterexample :
    detectFieldHighlights
        [("A", (⟨none, none, some [⟨"X_1", "2"⟩]⟩ : StoredCase))]
        [("A", (⟨none, none, some [⟨"X", "1_2"⟩]⟩ : StoredCase))] =
      .ok [("A", ⟨false, false, []⟩)]
    ∧ ¬((⟨"X", "1_2"⟩ : StoredEvent) ∈ [(⟨"X_1", "2"⟩ : StoredEvent)])
    ∧ ¬((⟨"X_1", "2"⟩ : StoredEvent).eventCode = (⟨"X", "1_2"⟩ : StoredEvent).eventCode
        ∧ (⟨"X_1", "2"⟩ : StoredEvent).updatedAtTimestamp =
            (⟨"X", "1_2"⟩ : StoredEvent).updatedAtTimestamp)
    ∧ ([(⟨"X", "1_2"⟩ : StoredEvent)].get? 0 = some ⟨"X", "1_2"⟩)
    ∧ ¬(0 ∈ ([] : List Nat)) :=
  ⟨rfl, by decide, by decide, rfl, by decide⟩

/-- Claim C2, amended: for an id present in both mappings, an index of
the events list of the new record is in newEventIndices iff no prior
event of that id has the same underscore-joined string key
eventCode + "_" + updatedAtTimestamp; in particular an event whose
eventCode and updatedAtTimestamp both exactly match some prior event is
never marked, regardless of position. (Distinct field pairs whose
joined strings collide are also treated as matching, which is the
correction to the claim.) -/
theorem c2_composite_key_matching (oldCases newCases : Cases) (hl : HighlightMap)
    (id : String) (oldC newC : StoredCase) (h : Highlight)
    (hd : detectFieldHighlights oldCases newCases = .ok hl)
    (hold : oldCases.lookup id = some oldC)
    (hnew : newCases.lookup id = some newC)
    (hh : hl.lookup id = some h)
    (i : Nat) (e : StoredEvent)
    (he : (newC.events.getD []).get? i = some e) :
    (i ∈ h.newEventIndices ↔ ∀ e2 ∈ oldC.events.getD [], evKey e2 ≠ evKey e)
    ∧ ((∃ e2 ∈ oldC.events.getD [],
          e2.eventCode = e.eventCode ∧ e2.updatedAtTimestamp = e.updatedAtTimestamp) →
        i ∉ h.newEventIndices) := by
  obtain ⟨h2, h1, h3⟩ := detect_ok_lookup hd hnew
  rw [hh] at h3
  injection h3 with h3
  subst h3
  rw [hold] at h1
  simp only [detectOne] at h1
  injection h1 with h1
  rw [← h1]
  have hiff := mem_newIdx_iff (oldC.events.getD []) (newC.events.getD []) i e he
  refine ⟨hiff, ?_⟩
  rintro ⟨e2, he2, hcode, hts⟩ hmem
  refine hiff.mp hmem e2 he2 ?_
  show e2.eventCode ++ "_" ++ e2.updatedAtTimestamp = e.eventCode ++ "_" ++ e.updatedAtTimestamp
  rw [hcode, hts]

/-- Witness for C2 (amended) at a concrete pair of snapshots: the
event (H008, T2) at index 0 is new, the event (IAF, T1) at index 1
also occurs in the prior record and is not marked. -/
theorem c2_witness :
    detectFieldHighlights
        [("A", (⟨none, some "T1", some [⟨"IAF", "T1"⟩]⟩ : StoredCase))]
        [("A", (⟨none, some "T2", some [⟨"H008", "T2"⟩, ⟨"IAF", "T1"⟩]⟩ : StoredCase))] =
      .ok [("A", ⟨false, true, [0]⟩)]
    ∧ (1 ∉ (⟨false, true, [0]⟩ : Highlight).newEventIndices) :=
  ⟨rfl,
   (c2_composite_key_matching
      [("A", ⟨none, some "T1", some [⟨"IAF", "T1"⟩]⟩)]
      [("A", ⟨none, some "T2", some [⟨"H008", "T2"⟩, ⟨"IAF", "T1"⟩]⟩)]
      [("A", ⟨false, true, [0]⟩)] "A"
      ⟨none, some "T1", some [⟨"IAF", "T1"⟩]⟩
      ⟨none, some "T2", some [⟨"H008", "T2"⟩, ⟨"IAF", "T1"⟩]⟩
      ⟨false, true, [0]⟩ rfl rfl rfl rfl 1 ⟨"IAF", "T1"⟩ rfl).2
     ⟨⟨"IAF", "T1"⟩, by decide, rfl, rfl⟩⟩

/-- Claim C3: for an id present in both mappings, the updatedAtChanged
flag is true iff the prior and new records differ in updatedAtTimestamp
or differ in updatedAt, each compared by exact value equality. -/
theorem c3_field_changed_iff (oldCases newCases : Cases) (hl : HighlightMap)
    (id : String) (oldC newC : StoredCase) (h : Highlight)
    (hd : detectFieldHighlights oldCases newCases = .ok hl)
    (hold : oldCases.lookup id = some oldC)
    (hnew : newCases.lookup id = some newC)
    (hh : hl.lookup id = some h) :
    (h.updatedAtChanged = true ↔
      (oldC.updatedAtTimestamp ≠ newC.updatedAtTimestamp ∨ oldC.updatedAt ≠ newC.updatedAt)) := by
  obtain ⟨h2, h1, h3⟩ := detect_ok_lookup hd hnew
  rw [hh] at h3
  injection h3 with h3
  subst h3
  rw [hold] at h1
  simp only [detectOne] at h1
  injection h1 with h1
  rw [← h1]
  simp [Bool.or_eq_true, bne_iff_ne]

/-- Witness for C3: records differing only in updatedAt. -/
theorem c3_witness :
    detectFieldHighlights
        [("A", (⟨some "u1", some "T1", some []⟩ : StoredCase))]
        [("A", (⟨some "u2", some "T1", some []⟩ : StoredCase))] =
      .ok [("A", ⟨false, true, []⟩)]
    ∧ ((⟨false, true, []⟩ : Highlight).updatedAtChanged = true ↔
        ((some "T1" : Option String) ≠ some "T1" ∨ (some "u1" : Option String) ≠ some "u2")) :=
  ⟨rfl,
   c3_field_changed_iff
     [("A", ⟨some "u1", some "T1", some []⟩)]
     [("A", ⟨some "u2", some "T1", some []⟩)]
     [("A", ⟨false, true, []⟩)] "A"
     ⟨some "u1", some "T1", some []⟩ ⟨some "u2", some "T1", some []⟩
     ⟨false, true, []⟩ rfl rfl rfl rfl⟩

/-- Claim C10: detectFieldHighlights tolerates a missing events list
asymmetrically. For an id present in both snapshots a missing events
field on either side behaves as the empty list and the call succeeds;
for an id absent from the prior snapshot a missing events field on the
new record raises, so the whole call succeeds iff every new-only entry
carries an events list. -/
theorem c10_events_guard_asymmetry :
    (∀ (o c : StoredCase),
        detectOne (some o) { c with events := none } =
          detectOne (some o) { c with events := some [] }
      ∧ detectOne (some { o with events := none }) c =
          detectOne (some { o with events := some [] }) c
      ∧ ∃ h, detectOne (some o) c = .ok h)
  ∧ (∀ c : StoredCase, c.events = none → detectOne none c = .error ())
  ∧ (∀ oldCases newCases : Cases,
      (∃ hl, detectFieldHighlights oldCases newCases = .ok hl) ↔
        ∀ p ∈ newCases, oldCases.lookup p.1 = none → p.2.events ≠ none) := by
  refine ⟨fun o c => ⟨rfl, rfl, ⟨_, rfl⟩⟩, fun c hc => by simp [detectOne, hc], ?_⟩
  intro oldCases newCases
  induction newCases with
  | nil => simp [detectFieldHighlights]
  | cons p rest ih =>
    obtain ⟨k, c⟩ := p
    constructor
    · rintro ⟨hl, hd⟩ q hq hqold
      obtain ⟨h, hs, h1, h2, rfl⟩ := detect_ok_cons hd
      rcases List.mem_cons.mp hq with hq | hq
      · subst hq
        rw [hqold] at h1
        intro hce
        rw [detectOne, hce] at h1
        cases h1
      · exact ih.mp ⟨hs, h2⟩ q hq hqold
    · intro hall
      have hone : ∃ h, detectOne (oldCases.lookup k) c = .ok h := by
        cases hlk : oldCases.lookup k with
        | some old => exact ⟨_, rfl⟩
        | none =>
          cases hce : c.events with
          | none => exact absurd hce (hall (k, c) (List.mem_cons_self _ _) hlk)
          | some evs =>
            exact ⟨⟨true, true, List.range evs.length⟩, by simp [detectOne, hce]⟩
      obtain ⟨h, h1⟩ := hone
      obtain ⟨hs, h2⟩ := ih.mpr (fun q hq => hall q (List.mem_cons_of_mem _ hq))
      exact ⟨(k, h) :: hs, by simp [detectFieldHighlights, h1, h2]⟩

/-- Witness for C10 at concrete inputs: a missing events list on a
new-only record raises, and the whole call on such an input fails. -/
theorem c10_witness :
    ((⟨none, none, none⟩ : StoredCase).events = none)
    ∧ detectOne none ⟨none, none, none⟩ = .error ()
    ∧ (∀ p ∈ ([("A", (⟨none, none, some []⟩ : StoredCase))] : Cases),
        ([] : Cases).lookup p.1 = none → p.2.events ≠ none)
    ∧ ∃ hl, detectFieldHighlights [] [("A", ⟨none, none, some []⟩)] = .ok hl :=
  ⟨rfl,
   c10_events_guard_asymmetry.2.1 ⟨none, none, none⟩ rfl,
   by decide,
   (c10_events_guard_asymmetry.2.2 [] [("A", ⟨none, none, some []⟩)]).mpr (by decide)⟩

/-! ## Claims about the history store -/

/-- Consecutive saveToHistory calls from a state whose history parses
append exactly one entry per call. -/
theorem appendAll_ok (items : List (Cases × String × String)) :
    ∀ (s : Storage) (h0 : List Snapshot), getHistory s = .ok h0 →
      ∃ s2, appendAll items s = .ok s2 ∧
        getHistory s2 = .ok (h0 ++ items.map (fun it => (⟨it.1, it.2.1⟩ : Snapshot))) := by
  induction items with
  | nil =>
    intro s h0 h
    exact ⟨s, rfl, by simpa using h⟩
  | cons it rest ih =>
    intro s h0 h
    have hsave : saveToHistory it.1 it.2.1 it.2.2 s =
        .ok ⟨some (.wf (h0 ++ [⟨it.1, it.2.1⟩])), some (.wf ⟨some it.1, some it.2.2⟩)⟩ := by
      simp [saveToHistory, h]
    obtain ⟨s2, hs2, hh2⟩ := ih ⟨some (.wf (h0 ++ [⟨it.1, it.2.1⟩])),
      some (.wf ⟨some it.1, some it.2.2⟩)⟩ (h0 ++ [⟨it.1, it.2.1⟩]) (by simp [getHistory])
    refine ⟨s2, ?_, ?_⟩
    · simp [appendAll, hsave, hs2]
    · simpa [List.append_assoc] using hh2

/-- Counterexample to claim C5 as stated: when the stored history entry
holds unparseable data, saveToHistory propagates the JSON.parse
exception and stores nothing, so after append the latest cases are not
the appended mapping. -/
theorem c5_counterexample :
    saveToHistory [] "t1" "t2" ⟨some .corrupt, none⟩ = .error ()
    ∧ (saveToHistory [] "t1" "t2" ⟨some .corrupt, none⟩).isOk = false :=
  ⟨rfl, rfl⟩

/-- Claim C5, amended: for every storage state whose stored history
entry parses (is absent or well-formed), after saveToHistory(S) the
latest cases are exactly S; after N consecutive appends to a state with
empty history the stored history has length N; and after
clearAllHistory the latest cases are empty and the stored history has
length 0, from any state, legacy record or not. -/
theorem c5_history_append_clear (s : Storage) (S : Cases) (t1 t2 : String)
    (items : List (Cases × String × String)) :
    (∀ h0, getHistory s = .ok h0 →
      ∃ s2, saveToHistory S t1 t2 s = .ok s2 ∧ getLastSavedCases s2 = .ok (S, s2))
  ∧ (getHistory s = .ok [] →
      ∃ s2 h, appendAll items s = .ok s2 ∧ getHistory s2 = .ok h ∧ h.length = items.length)
  ∧ getLastSavedCases (clearAllHistory s) = .ok ([], clearAllHistory s)
  ∧ getHistory (clearAllHistory s) = .ok [] := by
  refine ⟨?_, ?_, rfl, rfl⟩
  · intro h0 h
    refine ⟨⟨some (.wf (h0 ++ [⟨S, t1⟩])), some (.wf ⟨some S, some t2⟩)⟩,
      by simp [saveToHistory, h], ?_⟩
    simp [getLastSavedCases, getHistory, List.getLast?_concat]
  · intro h
    obtain ⟨s2, hs2, hh2⟩ := appendAll_ok items s [] h
    exact ⟨s2, _, hs2, hh2, by simp⟩

/-- Witness for C5 (amended): one append to the empty storage state,
then the latest cases are the appended mapping; one append from empty
yields history length 1; clearing yields empty latest cases and empty
history. -/
theorem c5_witness :
    (∃ s2, saveToHistory [("A", (⟨none, none, some []⟩ : StoredCase))] "t1" "t2" ⟨none, none⟩ =
        .ok s2 ∧ getLastSavedCases s2 = .ok ([("A", ⟨none, none, some []⟩)], s2))
    ∧ (∃ s2 h, appendAll [([], "a", "b")] ⟨none, none⟩ = .ok s2
        ∧ getHistory s2 = .ok h ∧ h.length = 1)
    ∧ getLastSavedCases (clearAllHistory ⟨none, none⟩) = .ok ([], clearAllHistory ⟨none, none⟩)
    ∧ getHistory (clearAllHistory ⟨none, none⟩) = .ok [] :=
  ⟨(c5_history_append_clear ⟨none, none⟩ [("A", ⟨none, none, some []⟩)] "t1" "t2"
      [([], "a", "b")]).1 [] rfl,
   (c5_history_append_clear ⟨none, none⟩ [("A", ⟨none, none, some []⟩)] "t1" "t2"
      [([], "a", "b")]).2.1 rfl,
   (c5_history_append_clear ⟨none, none⟩ [("A", ⟨none, none, some []⟩)] "t1" "t2"
      [([], "a", "b")]).2.2.1,
   (c5_history_append_clear ⟨none, none⟩ [("A", ⟨none, none, some []⟩)] "t1" "t2"
      [([], "a", "b")]).2.2.2⟩

/-- Claim C6: when the append-only history is empty and a well-formed
legacy record with a cases field exists, getLastSavedCases returns the
legacy cases, and the storage state after the call is the input state
(the read writes nothing). -/
theorem c6_legacy_read_only (s : Storage) (r : LegacyRec) (c : Cases)
    (hh : getHistory s = .ok [])
    (hleg : s.legacySlot = some (.wf r))
    (hc : r.cases = some c) :
    getLastSavedCases s = .ok (c, s) := by
  simp [getLastSavedCases, hh, hleg, hc]

/-- Witness for C6: empty history alongside a concrete legacy record. -/
theorem c6_witness :
    getHistory ⟨none, some (.wf ⟨some [("A", ⟨none, none, some []⟩)], some "f"⟩)⟩ = .ok []
    ∧ getLastSavedCases ⟨none, some (.wf ⟨some [("A", ⟨none, none, some []⟩)], some "f"⟩)⟩ =
        .ok ([("A", ⟨none, none, some []⟩)],
          ⟨none, some (.wf ⟨some [("A", ⟨none, none, some []⟩)], some "f"⟩)⟩) :=
  ⟨rfl,
   c6_legacy_read_only ⟨none, some (.wf ⟨some [("A", ⟨none, none, some []⟩)], some "f"⟩)⟩
     ⟨some [("A", ⟨none, none, some []⟩)], some "f"⟩ [("A", ⟨none, none, some []⟩)]
     rfl rfl rfl⟩

/-- Counterexample to claim C7 as stated: with unparseable data in the
stored history entry, getLastSavedCases propagates the JSON.parse
exception instead of returning the empty mapping. -/
theorem c7_counterexample :
    getLastSavedCases ⟨some .corrupt, none⟩ = .error ()
    ∧ (getLastSavedCases ⟨some .corrupt, none⟩).isOk = false :=
  ⟨rfl, rfl⟩

/-- Claim C7, amended: reading the latest cases raises the parse error
to the caller whenever the stored history entry is unparseable, or the
history is empty and the legacy entry it falls back to is unparseable;
only an absent entry is treated as empty history (empty mapping, no
error). -/
theorem c7_corrupt_read_raises (s : Storage) :
    (s.historySlot = some .corrupt → getLastSavedCases s = .error ())
  ∧ (getHistory s = .ok [] → s.legacySlot = some .corrupt → getLastSavedCases s = .error ())
  ∧ getLastSavedCases ⟨none, none⟩ = .ok ([], ⟨none, none⟩) := by
  refine ⟨?_, ?_, rfl⟩
  · intro h
    simp [getLastSavedCases, getHistory, h]
  · intro h hleg
    simp [getLastSavedCases, h, hleg]

/-- Witness for C7 (amended): empty history with an unparseable legacy
record makes the read raise. -/
theorem c7_witness :
    (getHistory ⟨none, some .corrupt⟩ = .ok [])
    ∧ getLastSavedCases ⟨none, some .corrupt⟩ = .error () :=
  ⟨rfl, (c7_corrupt_read_raises ⟨none, some .corrupt⟩).2.1 rfl rfl⟩

/-! ## Claims about the case reconciler -/

/-- Claim C8: getEventCodeDescription looks the uppercased code up in
the static table and never fails: when the uppercase form of the code
is a key of EVENT_CODES the table entry is returned, and otherwise the
sentinel "Unknown" is returned. -/
theorem c8_code_lookup (key : String) :
    (∀ d, EVENT_CODES.lookup (toUpperChars key) = some d → getEventCodeDescription key = d)
  ∧ (EVENT_CODES.lookup (toUpperChars key) = none →
      getEventCodeDescription key = "Unknown") := by
  constructor
  · intro d hd
    simp [getEventCodeDescription, hd]
  · intro hd
    simp [getEventCodeDescription, hd]

/-- Witness for C8: the lowercase code "iaf" resolves to the entry of
"IAF", and the unknown code "ZZZ" resolves to "Unknown". -/
theorem c8_witness :
    EVENT_CODES.lookup (toUpperChars "iaf") = some "Receipt letter emailed"
    ∧ getEventCodeDescription "iaf" = "Receipt letter emailed"
    ∧ EVENT_CODES.lookup (toUpperChars "ZZZ") = none
    ∧ getEventCodeDescription "ZZZ" = "Unknown"
    ∧ getEventCodeDescription "iaf" = getEventCodeDescription "IAF" :=
  ⟨rfl, (c8_code_lookup "iaf").1 "Receipt letter emailed" rfl, rfl,
   (c8_code_lookup "ZZZ").2 rfl, rfl⟩

/-- Claim C4: the events list of every record produced by the
normalization of fetchCaseData is sorted by parsed timestamp in
descending order: each adjacent pair satisfies
dateVal e[i] >= dateVal e[i+1], for any input order of the raw events
and any date valuation of the timestamp strings. -/
theorem c4_events_sorted_desc (dateVal : String → Int) (caseNumber : String)
    (info : CaseInfo) (docs now : String) (i : Nat)
    (hi : i + 1 < (buildCaseRecord dateVal caseNumber info docs now).events.length) :
    dateVal (((buildCaseRecord dateVal caseNumber info docs now).events.get
        ⟨i, Nat.lt_of_succ_lt hi⟩).updatedAtTimestamp) ≥
      dateVal (((buildCaseRecord dateVal caseNumber info docs now).events.get
        ⟨i + 1, hi⟩).updatedAtTimestamp) := by
  have hs : List.Sorted (eventLe dateVal)
      ((buildCaseRecord dateVal caseNumber info docs now).events) :=
    List.sorted_insertionSort (eventLe dateVal) ((info.events.getD []).map normalizeEvent)
  exact hs.rel_get_of_lt (Fin.mk_lt_mk.mpr (Nat.lt_succ_self i))

/-- Witness for C4: two raw events given oldest-first are returned
newest-first under the date valuation by string length. -/
theorem c4_witness :
    (0 + 1 < (buildCaseRecord (fun s => (s.length : Int)) "IOE1"
        ⟨none, none, none, none, none, some [⟨"IAF", "aa"⟩, ⟨"H008", "aaaa"⟩]⟩
        "D" "t").events.length)
    ∧ (fun s => (s.length : Int))
        (((buildCaseRecord (fun s => (s.length : Int)) "IOE1"
            ⟨none, none, none, none, none, some [⟨"IAF", "aa"⟩, ⟨"H008", "aaaa"⟩]⟩
            "D" "t").events.get ⟨0, by decide⟩).updatedAtTimestamp) ≥
      (fun s => (s.length : Int))
        (((buildCaseRecord (fun s => (s.length : Int)) "IOE1"
            ⟨none, none, none, none, none, some [⟨"IAF", "aa"⟩, ⟨"H008", "aaaa"⟩]⟩
            "D" "t").events.get ⟨0 + 1, by decide⟩).updatedAtTimestamp) :=
  ⟨by decide,
   c4_events_sorted_desc (fun s => (s.length : Int)) "IOE1"
     ⟨none, none, none, none, none, some [⟨"IAF", "aa"⟩, ⟨"H008", "aaaa"⟩]⟩
     "D" "t" 0 (by decide)⟩

/-- Counterexample to claim C9 as stated: fetchCaseData stamps the
record with new Date().toISOString() as lastFetched, so two runs of the
normalization on the same raw payload at different clock readings do
not yield identical CaseRecords. -/
theorem c9_counterexample :
    buildCaseRecord (fun _ => 0) "IOE1" ⟨none, none, none, none, none, none⟩ "D" "t1"
      ≠ buildCaseRecord (fun _ => 0) "IOE1" ⟨none, none, none, none, none, none⟩ "D" "t2" := by
  decide

/-- Claim C9, amended: the normalization of fetchCaseData is a
deterministic function of the raw payload and the clock reading, and
every field other than lastFetched, the events list and its ordering
included, depends on the raw payload alone: two runs at different
clock readings agree after replacing lastFetched. -/
theorem c9_deterministic_up_to_fetch_time (dateVal : String → Int) (caseNumber : String)
    (info : CaseInfo) (docs t t2 : String) :
    { buildCaseRecord dateVal caseNumber info docs t with lastFetched := t2 }
      = buildCaseRecord dateVal caseNumber info docs t2 :=
  rfl
